import Mathlib

/-!
Shallow embedding of the point-cloud viewer core (`src/data/viewer.py`):
the uniform occupancy grid (`RejillaOcupacion`), the adaptive octree
(`NodoOctree`), and the systematic leaf sampler from `visualizar_archivo`.
Real coordinates are modelled as rationals; the Python dict of cell counts
is modelled as an insertion-ordered association list; the recursive octree
constructor is modelled with an explicit recursion-depth budget (`fuel`),
returning `none` exactly when the budget is exhausted before the real
recursion would have stopped, so a `some` result is the exact tree the
source constructs.
-/

/-- A 3D point, one row of the numpy point array. -/
structure Punto where
  x : ℚ
  y : ℚ
  z : ℚ
deriving DecidableEq

/-- A bounding box `((x0, y0, z0), (x1, y1, z1))` (min corner, max corner). -/
abbrev Limites : Type := (ℚ × ℚ × ℚ) × (ℚ × ℚ × ℚ)

/-- Fold-based minimum, modelling `np.min` over a nonempty list (initial
element plus the rest). -/
def minimoLista (a : ℚ) (l : List ℚ) : ℚ := l.foldl min a

/-- Fold-based maximum, modelling `np.max`. -/
def maximoLista (a : ℚ) (l : List ℚ) : ℚ := l.foldl max a

/-- Integer cell index of a point, from `RejillaOcupacion._poblar`:
`ix = int((x - x_minimo) // tam_celda)` per axis (floor division). -/
def clavePunto (xMin yMin zMin tamCelda : ℚ) (q : Punto) : ℤ × ℤ × ℤ :=
  (⌊(q.x - xMin) / tamCelda⌋, ⌊(q.y - yMin) / tamCelda⌋, ⌊(q.z - zMin) / tamCelda⌋)

/-- One step of `self.rejilla[clave] = self.rejilla.get(clave, 0) + 1` on the
insertion-ordered association list modelling the Python dict: update the
existing entry in place, or append a fresh entry with count 1. -/
def ponerIncremento (d : List ((ℤ × ℤ × ℤ) × ℕ)) (clave : ℤ × ℤ × ℤ) :
    List ((ℤ × ℤ × ℤ) × ℕ) :=
  if d.any (fun e => decide (e.1 = clave)) then
    d.map (fun e => if e.1 = clave then (e.1, e.2 + 1) else e)
  else
    d ++ [(clave, 1)]

/-- The loop of `RejillaOcupacion._poblar`: bucket every point. -/
def poblar (puntos : List Punto) (xMin yMin zMin tamCelda : ℚ) :
    List ((ℤ × ℤ × ℤ) × ℕ) :=
  puntos.foldl (fun d q => ponerIncremento d (clavePunto xMin yMin zMin tamCelda q)) []

/-- The state built by `RejillaOcupacion.__init__`. -/
structure RejillaOcupacion where
  puntos : List Punto
  tamCelda : ℚ
  xMinimo : ℚ
  yMinimo : ℚ
  zMinimo : ℚ
  xMaximo : ℚ
  yMaximo : ℚ
  zMaximo : ℚ
  totalCeldas : ℤ
  rejilla : List ((ℤ × ℤ × ℤ) × ℕ)
deriving DecidableEq

/-- `RejillaOcupacion.__init__`: per-axis min/max of the points, grid
dimension `n_i = int(floor((max_i - min_i) / tam_celda)) + 1` per axis,
`total_celdas = nx * ny * nz`, then `_poblar`.  `np.min` of an empty array
raises, so the empty point list yields `none`. -/
def construirRejilla (puntos : List Punto) (tamCelda : ℚ) : Option RejillaOcupacion :=
  match puntos with
  | [] => none
  | p :: resto =>
    let xMin := minimoLista p.x (resto.map Punto.x)
    let yMin := minimoLista p.y (resto.map Punto.y)
    let zMin := minimoLista p.z (resto.map Punto.z)
    let xMax := maximoLista p.x (resto.map Punto.x)
    let yMax := maximoLista p.y (resto.map Punto.y)
    let zMax := maximoLista p.z (resto.map Punto.z)
    let nx : ℤ := ⌊(xMax - xMin) / tamCelda⌋ + 1
    let ny : ℤ := ⌊(yMax - yMin) / tamCelda⌋ + 1
    let nz : ℤ := ⌊(zMax - zMin) / tamCelda⌋ + 1
    some ⟨p :: resto, tamCelda, xMin, yMin, zMin, xMax, yMax, zMax,
          nx * ny * nz, poblar (p :: resto) xMin yMin zMin tamCelda⟩

/-- Result record of `RejillaOcupacion.estadisticas_celdas`. -/
structure EstadCeldas where
  total_celdas : ℤ
  ocupadas : ℕ
  vacias : ℤ
  promedio_puntos : ℚ
deriving DecidableEq

/-- `RejillaOcupacion.estadisticas_celdas`: occupied cells are the stored
buckets, `vacias = total_celdas - ocupadas`, and the average is the mean of
the bucket counts, or `0` when no cell is occupied. -/
def RejillaOcupacion.estadisticas_celdas (g : RejillaOcupacion) : EstadCeldas :=
  ⟨g.totalCeldas, g.rejilla.length, g.totalCeldas - (g.rejilla.length : ℤ),
   if g.rejilla.length ≠ 0 then
     (g.rejilla.map (fun e => (e.2 : ℚ))).sum / (g.rejilla.length : ℚ)
   else 0⟩

/-- The per-octant membership mask of `NodoOctree._subdividir`: per axis
`coord >= low AND coord < high`. -/
def pertenece (q : Punto) (lim : Limites) : Bool :=
  decide (lim.1.1 ≤ q.x ∧ q.x < lim.2.1 ∧
          lim.1.2.1 ≤ q.y ∧ q.y < lim.2.2.1 ∧
          lim.1.2.2 ≤ q.z ∧ q.z < lim.2.2.2)

/-- `puntos_hijo = self.puntos[mascara]`. -/
def filtrar (puntos : List Punto) (lim : Limites) : List Punto :=
  puntos.filter (fun q => pertenece q lim)

/-- `np.max(np.subtract(limites[1], limites[0]))`: the largest per-axis
extent of a bounding box. -/
def maxExtension (lim : Limites) : ℚ :=
  max (lim.2.1 - lim.1.1) (max (lim.2.2.1 - lim.1.2.1) (lim.2.2.2 - lim.1.2.2))

/-- The eight sub-boxes of `NodoOctree._subdividir`, the triple loop
`for dx in [(x0, mx), (mx, x1)]: for dy ...: for dz ...` unrolled in its
order (x half outermost, then y, then z innermost). -/
def octantes (lim : Limites) : List Limites :=
  let x0 := lim.1.1
  let y0 := lim.1.2.1
  let z0 := lim.1.2.2
  let x1 := lim.2.1
  let y1 := lim.2.2.1
  let z1 := lim.2.2.2
  let mx := (x0 + x1) / 2
  let my := (y0 + y1) / 2
  let mz := (z0 + z1) / 2
  [ ((x0, y0, z0), (mx, my, mz)),
    ((x0, y0, mz), (mx, my, z1)),
    ((x0, my, z0), (mx, y1, mz)),
    ((x0, my, mz), (mx, y1, z1)),
    ((mx, y0, z0), (x1, my, mz)),
    ((mx, y0, mz), (x1, my, z1)),
    ((mx, my, z0), (x1, y1, mz)),
    ((mx, my, mz), (x1, y1, z1)) ]

/-- The `i`-th sub-box in the fixed subdivision order. -/
def octante (lim : Limites) (i : ℕ) : Limites := (octantes lim).getD i lim

/-- An octree node: its points, its bounding box, and its (possibly empty)
ordered list of children, exactly the state of a `NodoOctree` instance. -/
inductive NodoOctree : Type where
  | mk (puntos : List Punto) (limites : Limites) (hijos : List NodoOctree)

/-- The `puntos` field. -/
def NodoOctree.puntos : NodoOctree → List Punto
  | NodoOctree.mk p _ _ => p

/-- The `limites` field. -/
def NodoOctree.limites : NodoOctree → Limites
  | NodoOctree.mk _ l _ => l

/-- The `hijos` field. -/
def NodoOctree.hijos : NodoOctree → List NodoOctree
  | NodoOctree.mk _ _ h => h

/-- `NodoOctree.__init__` / `_subdividir_o_hoja` / `_subdividir`:
subdivide exactly when `len(puntos) > maximo_puntos` and
`np.max(tam) > tam_minimo`, recursing into the eight octants in their fixed
order with the points selected by the membership mask; otherwise the node is
a leaf.  `fuel` bounds the recursion depth: `none` means the budget ran out
before construction finished, while `some t` is the exact tree the Python
constructor builds. -/
def construir : ℕ → List Punto → Limites → ℚ → ℤ → Option NodoOctree
  | 0, _, _, _, _ => none
  | fuel + 1, puntos, lim, tamMinimo, maximoPuntos =>
    if (puntos.length : ℤ) > maximoPuntos ∧ maxExtension lim > tamMinimo then
      match construir fuel (filtrar puntos (octante lim 0)) (octante lim 0) tamMinimo maximoPuntos,
            construir fuel (filtrar puntos (octante lim 1)) (octante lim 1) tamMinimo maximoPuntos,
            construir fuel (filtrar puntos (octante lim 2)) (octante lim 2) tamMinimo maximoPuntos,
            construir fuel (filtrar puntos (octante lim 3)) (octante lim 3) tamMinimo maximoPuntos,
            construir fuel (filtrar puntos (octante lim 4)) (octante lim 4) tamMinimo maximoPuntos,
            construir fuel (filtrar puntos (octante lim 5)) (octante lim 5) tamMinimo maximoPuntos,
            construir fuel (filtrar puntos (octante lim 6)) (octante lim 6) tamMinimo maximoPuntos,
            construir fuel (filtrar puntos (octante lim 7)) (octante lim 7) tamMinimo maximoPuntos with
      | some h0, some h1, some h2, some h3, some h4, some h5, some h6, some h7 =>
        some (NodoOctree.mk puntos lim [h0, h1, h2, h3, h4, h5, h6, h7])
      | _, _, _, _, _, _, _, _ => none
    else
      some (NodoOctree.mk puntos lim [])

/-- The per-node accumulator record of `recopilar_estadisticas`. -/
structure EstadRaw where
  nodos : ℕ
  hojas : ℕ
  internos : ℕ
  hojasOcupadas : ℕ
  hojasVacias : ℕ
  sumaPuntos : ℕ
deriving DecidableEq

/-- Fieldwise addition, the `estad[k] += sub[k]` loop. -/
def sumarEstad (a b : EstadRaw) : EstadRaw :=
  ⟨a.nodos + b.nodos, a.hojas + b.hojas, a.internos + b.internos,
   a.hojasOcupadas + b.hojasOcupadas, a.hojasVacias + b.hojasVacias,
   a.sumaPuntos + b.sumaPuntos⟩

mutual

/-- The inner `recursivo` of `recopilar_estadisticas`: a leaf contributes
one (occupied or empty) leaf and its point count; an internal node starts
from `nodos = 1, internos = 1` and adds all child statistics. -/
def recopilarRaw : NodoOctree → EstadRaw
  | NodoOctree.mk puntos _ hijos =>
    if hijos.isEmpty then
      ⟨1, 1, 0,
       if 0 < puntos.length then 1 else 0,
       if 0 < puntos.length then 0 else 1,
       if 0 < puntos.length then puntos.length else 0⟩
    else
      acumular hijos ⟨1, 0, 1, 0, 0, 0⟩

/-- The `for h in nodo.hijos: estad += recursivo(h)` loop. -/
def acumular : List NodoOctree → EstadRaw → EstadRaw
  | [], acc => acc
  | h :: resto, acc => acumular resto (sumarEstad acc (recopilarRaw h))

end

/-- Result record of `recopilar_estadisticas`. -/
structure Estadisticas where
  total_nodos : ℕ
  hojas : ℕ
  internos : ℕ
  hojas_ocupadas : ℕ
  hojas_vacias : ℕ
  promedio_puntos : ℚ
deriving DecidableEq

/-- `NodoOctree.recopilar_estadisticas`: one recursive pass, then the
average over occupied leaves, `0` when there is none. -/
def NodoOctree.recopilar_estadisticas (n : NodoOctree) : Estadisticas :=
  let raw := recopilarRaw n
  ⟨raw.nodos, raw.hojas, raw.internos, raw.hojasOcupadas, raw.hojasVacias,
   if raw.hojasOcupadas ≠ 0 then (raw.sumaPuntos : ℚ) / (raw.hojasOcupadas : ℚ)
   else 0⟩

mutual

/-- Every node of the tree has either no children or exactly eight. -/
def NodoOctree.ochoOCero : NodoOctree → Bool
  | NodoOctree.mk _ _ hijos =>
    (decide (hijos.length = 0) || decide (hijos.length = 8)) && todosOchoOCero hijos

/-- `ochoOCero` on every member of a list of nodes. -/
def todosOchoOCero : List NodoOctree → Bool
  | [] => true
  | h :: resto => NodoOctree.ochoOCero h && todosOchoOCero resto

end

mutual

/-- `NodoOctree.obtener_nodos_hoja`: depth-first leaf list in child order. -/
def obtener_nodos_hoja : NodoOctree → List NodoOctree
  | NodoOctree.mk puntos lim hijos =>
    if hijos.isEmpty then [NodoOctree.mk puntos lim hijos]
    else hojasLista hijos

/-- The `for h in self.hijos: hojas.extend(...)` loop. -/
def hojasLista : List NodoOctree → List NodoOctree
  | [] => []
  | h :: resto => obtener_nodos_hoja h ++ hojasLista resto

end

/-- `len(n.puntos) > 0`, the occupied-leaf test of `visualizar_archivo`. -/
def esOcupada (n : NodoOctree) : Bool := decide (0 < n.puntos.length)

/-- Sampling index `int(i * paso)` with `paso = T / max_hojas` (real
division, then truncation of a nonnegative value, i.e. floor). -/
def indiceMuestra (t m i : ℕ) : ℕ :=
  Int.toNat ⌊(i : ℚ) * ((t : ℚ) / (m : ℚ))⌋

/-- The leaf-sampling step of `visualizar_archivo`: when
`max_hojas > 0 and T > max_hojas`, take the leaves at indices
`int(i * paso)` for `i = 0 .. max_hojas - 1`; otherwise keep the whole
list. -/
def seleccionarHojas {α : Type} [Inhabited α] (hojasOcupadas : List α) (maxHojas : ℕ) :
    List α :=
  let t := hojasOcupadas.length
  if 0 < maxHojas ∧ maxHojas < t then
    (List.range maxHojas).map
      (fun i => hojasOcupadas.getD (indiceMuestra t maxHojas i) default)
  else
    hojasOcupadas

/-! Properties of the leaf sampler -/

/-- With a stride strictly greater than one, the sampling indices are
strictly increasing. -/
theorem indiceMuestra_estricta {t m : ℕ} (hm : 0 < m) (hmt : m < t)
    {i j : ℕ} (hij : i < j) : indiceMuestra t m i < indiceMuestra t m j := by
  have hm0 : (0 : ℚ) < (m : ℚ) := by exact_mod_cast hm
  have hs : (1 : ℚ) < (t : ℚ) / (m : ℚ) := by
    rw [lt_div_iff₀ hm0, one_mul]
    exact_mod_cast hmt
  have hs0 : (0 : ℚ) ≤ (t : ℚ) / (m : ℚ) := le_of_lt (lt_trans one_pos hs)
  have hpiso : ⌊(i : ℚ) * ((t : ℚ) / (m : ℚ))⌋ + 1 ≤ ⌊(j : ℚ) * ((t : ℚ) / (m : ℚ))⌋ := by
    apply Int.le_floor.mpr
    have h1 : (⌊(i : ℚ) * ((t : ℚ) / (m : ℚ))⌋ : ℚ) ≤ (i : ℚ) * ((t : ℚ) / (m : ℚ)) :=
      Int.floor_le _
    have h2 : ((i : ℚ) + 1) * ((t : ℚ) / (m : ℚ)) ≤ (j : ℚ) * ((t : ℚ) / (m : ℚ)) := by
      apply mul_le_mul_of_nonneg_right _ hs0
      have hij1 : i + 1 ≤ j := hij
      have : ((i : ℚ) + 1) ≤ (j : ℚ) := by exact_mod_cast hij1
      linarith
    push_cast
    nlinarith
  have hnn : 0 ≤ ⌊(i : ℚ) * ((t : ℚ) / (m : ℚ))⌋ := Int.floor_nonneg.mpr (by positivity)
  simp only [indiceMuestra]
  omega

/-- Every sampling index is a valid position in the leaf list. -/
theorem indiceMuestra_rango {t m : ℕ} (hm : 0 < m) (hmt : m < t)
    {i : ℕ} (hi : i < m) : indiceMuestra t m i < t := by
  have hm0 : (0 : ℚ) < (m : ℚ) := by exact_mod_cast hm
  have hfl : ⌊(i : ℚ) * ((t : ℚ) / (m : ℚ))⌋ < (t : ℤ) := by
    apply Int.floor_lt.mpr
    push_cast
    have hmul : (m : ℚ) * ((t : ℚ) / (m : ℚ)) = (t : ℚ) := by
      field_simp
    have hi1 : (i : ℚ) ≤ (m : ℚ) - 1 := by
      have hi2 : i + 1 ≤ m := hi
      have : (i : ℚ) + 1 ≤ (m : ℚ) := by exact_mod_cast hi2
      linarith
    have hs : (1 : ℚ) < (t : ℚ) / (m : ℚ) := by
      rw [lt_div_iff₀ hm0, one_mul]
      exact_mod_cast hmt
    have hs0 : (0 : ℚ) ≤ (t : ℚ) / (m : ℚ) := le_of_lt (lt_trans one_pos hs)
    have h2 : (i : ℚ) * ((t : ℚ) / (m : ℚ)) ≤ ((m : ℚ) - 1) * ((t : ℚ) / (m : ℚ)) :=
      mul_le_mul_of_nonneg_right hi1 hs0
    nlinarith
  simp only [indiceMuestra]
  omega

/-- C6: when `T <= M` the sampler returns its input unchanged; when
`T > M > 0` it returns exactly the leaves at indices `floor(i * T/M)` for
`i = 0 .. M-1`, a list of length exactly `M`, with strictly increasing
indices that are valid positions, the first being index `0`. -/
theorem seleccionarHojas_espec {α : Type} [Inhabited α] (hojas : List α) (maxHojas : ℕ) :
    (hojas.length ≤ maxHojas → seleccionarHojas hojas maxHojas = hojas) ∧
    (0 < maxHojas → maxHojas < hojas.length →
      seleccionarHojas hojas maxHojas =
        (List.range maxHojas).map
          (fun i => hojas.getD (indiceMuestra hojas.length maxHojas i) default) ∧
      (seleccionarHojas hojas maxHojas).length = maxHojas ∧
      (∀ i j, i < j → j < maxHojas →
        indiceMuestra hojas.length maxHojas i < indiceMuestra hojas.length maxHojas j) ∧
      indiceMuestra hojas.length maxHojas 0 = 0 ∧
      (∀ i, i < maxHojas → indiceMuestra hojas.length maxHojas i < hojas.length)) := by
  constructor
  · intro hle
    rw [seleccionarHojas, if_neg]
    rintro ⟨-, hlt⟩
    omega
  · intro hm hmt
    have hsel : seleccionarHojas hojas maxHojas =
        (List.range maxHojas).map
          (fun i => hojas.getD (indiceMuestra hojas.length maxHojas i) default) := by
      rw [seleccionarHojas, if_pos ⟨hm, hmt⟩]
    refine ⟨hsel, ?_, ?_, ?_, ?_⟩
    · rw [hsel]
      simp
    · intro i j hij _
      exact indiceMuestra_estricta hm hmt hij
    · simp [indiceMuestra]
    · intro i hi
      exact indiceMuestra_rango hm hmt hi

/-- C6 witness: 3 leaves, cap 2. -/
theorem seleccionarHojas_espec_testigo :
    seleccionarHojas ([10, 11, 12] : List ℕ) 2 =
      (List.range 2).map
        (fun i => ([10, 11, 12] : List ℕ).getD (indiceMuestra 3 2 i) default) ∧
    (seleccionarHojas ([10, 11, 12] : List ℕ) 2).length = 2 ∧
    indiceMuestra 3 2 0 = 0 ∧
    seleccionarHojas ([4, 5] : List ℕ) 7 = [4, 5] :=
  have h := (seleccionarHojas_espec ([10, 11, 12] : List ℕ) 2).2 (by decide) (by decide)
  ⟨h.1, h.2.1, h.2.2.2.1, (seleccionarHojas_espec ([4, 5] : List ℕ) 7).1 (by decide)⟩

/-- C7 counterexample: with one occupied leaf and cap `M = 0` the code
returns the whole input, not the empty list the claim demands. -/
theorem seleccionarHojas_cero_contra :
    seleccionarHojas ([5] : List ℕ) 0 = [5] ∧ seleccionarHojas ([5] : List ℕ) 0 ≠ [] := by
  constructor
  · rfl
  · decide

/-- C7 amended: when the cap is `0` the guard `max_hojas > 0` disables
sampling and the output is the input unchanged. -/
theorem seleccionarHojas_cero {α : Type} [Inhabited α] (hojas : List α) :
    seleccionarHojas hojas 0 = hojas := by
  rw [seleccionarHojas, if_neg]
  rintro ⟨h0, -⟩
  exact absurd h0 (lt_irrefl 0)

/-! Structural facts about octree construction -/

/-- The subdivision order is the fixed list of the eight octants. -/
theorem octantes_getD (lim : Limites) :
    octantes lim = [octante lim 0, octante lim 1, octante lim 2, octante lim 3,
                    octante lim 4, octante lim 5, octante lim 6, octante lim 7] := rfl

/-- A constructed node keeps the bounding box it was given. -/
theorem construir_limites {fuel : ℕ} {p : List Punto} {lim : Limites} {m : ℚ} {M : ℤ}
    {t : NodoOctree} (h : construir fuel p lim m M = some t) : t.limites = lim := by
  match fuel with
  | 0 => simp [construir] at h
  | f + 1 =>
    rw [construir] at h
    split at h
    · split at h
      · obtain rfl := Option.some.inj h
        rfl
      · exact absurd h (by simp)
    · obtain rfl := Option.some.inj h
      rfl

/-- Inversion for one construction step: either the subdivision condition
fails and the node is a leaf, or it holds and the eight children are built
recursively on the octants in order. -/
theorem construir_succ_inv {f : ℕ} {p : List Punto} {lim : Limites} {m : ℚ} {M : ℤ}
    {t : NodoOctree} (h : construir (f + 1) p lim m M = some t) :
    (¬((p.length : ℤ) > M ∧ maxExtension lim > m) ∧ t = NodoOctree.mk p lim []) ∨
    (((p.length : ℤ) > M ∧ maxExtension lim > m) ∧
      ∃ n0 n1 n2 n3 n4 n5 n6 n7,
        construir f (filtrar p (octante lim 0)) (octante lim 0) m M = some n0 ∧
        construir f (filtrar p (octante lim 1)) (octante lim 1) m M = some n1 ∧
        construir f (filtrar p (octante lim 2)) (octante lim 2) m M = some n2 ∧
        construir f (filtrar p (octante lim 3)) (octante lim 3) m M = some n3 ∧
        construir f (filtrar p (octante lim 4)) (octante lim 4) m M = some n4 ∧
        construir f (filtrar p (octante lim 5)) (octante lim 5) m M = some n5 ∧
        construir f (filtrar p (octante lim 6)) (octante lim 6) m M = some n6 ∧
        construir f (filtrar p (octante lim 7)) (octante lim 7) m M = some n7 ∧
        t = NodoOctree.mk p lim [n0, n1, n2, n3, n4, n5, n6, n7]) := by
  rw [construir] at h
  by_cases hc : (p.length : ℤ) > M ∧ maxExtension lim > m
  · rw [if_pos hc] at h
    right
    refine ⟨hc, ?_⟩
    split at h
    · rename_i n0 n1 n2 n3 n4 n5 n6 n7 e0 e1 e2 e3 e4 e5 e6 e7
      exact ⟨n0, n1, n2, n3, n4, n5, n6, n7, e0, e1, e2, e3, e4, e5, e6, e7,
             (Option.some.inj h).symm⟩
    · exact absurd h (by simp)
  · rw [if_neg hc] at h
    left
    exact ⟨hc, (Option.some.inj h).symm⟩

/-- Forward construction step when the subdivision condition holds. -/
theorem construir_succ_pos {f : ℕ} {p : List Punto} {lim : Limites} {m : ℚ} {M : ℤ}
    (hc : (p.length : ℤ) > M ∧ maxExtension lim > m)
    {n0 n1 n2 n3 n4 n5 n6 n7 : NodoOctree}
    (e0 : construir f (filtrar p (octante lim 0)) (octante lim 0) m M = some n0)
    (e1 : construir f (filtrar p (octante lim 1)) (octante lim 1) m M = some n1)
    (e2 : construir f (filtrar p (octante lim 2)) (octante lim 2) m M = some n2)
    (e3 : construir f (filtrar p (octante lim 3)) (octante lim 3) m M = some n3)
    (e4 : construir f (filtrar p (octante lim 4)) (octante lim 4) m M = some n4)
    (e5 : construir f (filtrar p (octante lim 5)) (octante lim 5) m M = some n5)
    (e6 : construir f (filtrar p (octante lim 6)) (octante lim 6) m M = some n6)
    (e7 : construir f (filtrar p (octante lim 7)) (octante lim 7) m M = some n7) :
    construir (f + 1) p lim m M =
      some (NodoOctree.mk p lim [n0, n1, n2, n3, n4, n5, n6, n7]) := by
  rw [construir, if_pos hc, e0, e1, e2, e3, e4, e5, e6, e7]

/-! Parameter validation (or the absence of it) -/

/-- C4: the source performs no construction-time parameter validation and
defines no `InvalidParameterError`: an occupancy grid built with
`cellSize = -1 <= 0` is constructed without any error, and an octree built
with `minSize = 0 <= 0` and `maxPoints = 0 < 1` is likewise constructed
without any error. -/
theorem construccion_sin_validacion :
    (construirRejilla [⟨0, 0, 0⟩, ⟨1, 1, 1⟩] (-1)).isSome = true ∧
    (construir 1 [⟨0, 0, 0⟩] ((0, 0, 0), (0, 0, 0)) 0 0).isSome = true := by
  with_unfolding_all decide

/-- C10 counterexample: with `maxPoints = -1` an empty point set still
satisfies `len(puntos) > maximo_puntos`, so the root subdivides and the
tree has 9 nodes, not the single leaf the claim asserts for any
`maxPoints`. -/
theorem octree_vacio_contra :
    (construir 2 [] ((0, 0, 0), (1, 1, 1)) (1/2) (-1)).map
        (fun t => t.recopilar_estadisticas.total_nodos) = some 9 ∧
    (construir 2 [] ((0, 0, 0), (1, 1, 1)) (1/2) (-1)).map
        (fun t => t.recopilar_estadisticas.total_nodos) ≠ some 1 := by
  with_unfolding_all decide

/-- C10 amended: for any bounds, any `minSize` and any `maxPoints >= 0`,
the octree on the empty point set is the single empty leaf, with stats
`totalNodes = 1, leaves = 1, internal = 0, occupiedLeaves = 0,
emptyLeaves = 1, averagePointsPerOccupiedLeaf = 0`. -/
theorem octree_vacio {lim : Limites} {tamMin : ℚ} {maxPts : ℤ} {fuel : ℕ}
    (hfuel : 1 ≤ fuel) (hmax : 0 ≤ maxPts) :
    construir fuel [] lim tamMin maxPts = some (NodoOctree.mk [] lim []) ∧
    (NodoOctree.mk [] lim []).recopilar_estadisticas = ⟨1, 1, 0, 0, 1, 0⟩ := by
  obtain ⟨f, rfl⟩ : ∃ f, fuel = f + 1 := ⟨fuel - 1, by omega⟩
  constructor
  · rw [construir, if_neg]
    rintro ⟨h1, -⟩
    simp only [List.length_nil, Nat.cast_zero] at h1
    omega
  · rw [NodoOctree.recopilar_estadisticas, recopilarRaw]
    simp

/-- C10 amended witness. -/
theorem octree_vacio_testigo :
    construir 1 [] ((0, 0, 0), (1, 1, 1)) 1 10 =
      some (NodoOctree.mk [] ((0, 0, 0), (1, 1, 1)) []) ∧
    (NodoOctree.mk [] ((0, 0, 0), (1, 1, 1)) []).recopilar_estadisticas =
      ⟨1, 1, 0, 0, 1, 0⟩ :=
  octree_vacio (by decide) (by decide)

/-- C5: a constructed node has eight children exactly when
`len(puntos) > maximo_puntos` and the largest bounds extent exceeds
`tam_minimo`, and is otherwise a leaf with no children; the eight children
carry the octant boxes obtained by splitting each axis at its midpoint, in
the fixed order (x half outermost, then y, then z innermost), and their
point sets are the mask-filtered subsets of the parent points.  Every node
of a constructed tree is itself constructed by a recursive call, so this
step property applies to every node. -/
theorem construir_subdivision {fuel : ℕ} {p : List Punto} {lim : Limites} {m : ℚ} {M : ℤ}
    {t : NodoOctree} (h : construir (fuel + 1) p lim m M = some t) :
    (((p.length : ℤ) > M ∧ maxExtension lim > m) →
      t.hijos.length = 8 ∧
      t.hijos.map NodoOctree.limites = octantes lim ∧
      t.hijos.map NodoOctree.puntos = (octantes lim).map (filtrar p)) ∧
    (¬((p.length : ℤ) > M ∧ maxExtension lim > m) → t.hijos = []) := by
  rcases construir_succ_inv h with ⟨hnc, rfl⟩ | ⟨hc, n0, n1, n2, n3, n4, n5, n6, n7,
    e0, e1, e2, e3, e4, e5, e6, e7, rfl⟩
  · exact ⟨fun hc => absurd hc hnc, fun _ => rfl⟩
  · refine ⟨fun _ => ⟨rfl, ?_, ?_⟩, fun hnc => absurd hc hnc⟩
    · rw [octantes_getD]
      simp only [NodoOctree.hijos, List.map_cons, List.map_nil]
      rw [construir_limites e0, construir_limites e1, construir_limites e2,
          construir_limites e3, construir_limites e4, construir_limites e5,
          construir_limites e6, construir_limites e7]
    · have hp : ∀ fl pl (ol : Limites) (n : NodoOctree),
          construir fl pl ol m M = some n → n.puntos = pl := by
        intro fl pl ol n hn
        match fl with
        | 0 => simp [construir] at hn
        | f + 1 =>
          rcases construir_succ_inv hn with ⟨-, rfl⟩ | ⟨-, w0, w1, w2, w3, w4, w5, w6, w7,
            -, -, -, -, -, -, -, -, rfl⟩ <;> rfl
      rw [octantes_getD]
      simp only [NodoOctree.hijos, List.map_cons, List.map_nil]
      rw [hp _ _ _ _ e0, hp _ _ _ _ e1, hp _ _ _ _ e2, hp _ _ _ _ e3,
          hp _ _ _ _ e4, hp _ _ _ _ e5, hp _ _ _ _ e6, hp _ _ _ _ e7]

/-- C5 witness: two points in the unit cube with `maximo_puntos = 1`,
`tam_minimo = 1/2` force one subdivision into eight children in octant
order. -/
theorem construir_subdivision_testigo :
    (construir 2 [⟨0, 0, 0⟩, ⟨3/4, 3/4, 3/4⟩] ((0, 0, 0), (1, 1, 1)) (1/2) 1).map
        (fun t => (t.hijos.length, t.hijos.map NodoOctree.limites)) =
      some (8, octantes ((0, 0, 0), (1, 1, 1))) := by
  have hs : (construir 2 [⟨0, 0, 0⟩, ⟨3/4, 3/4, 3/4⟩]
      ((0, 0, 0), (1, 1, 1)) (1/2) 1).isSome = true := by
    with_unfolding_all decide
  obtain ⟨t, ht⟩ := Option.isSome_iff_exists.mp hs
  have h5 := (construir_subdivision ht).1 (by constructor <;> with_unfolding_all decide)
  rw [ht]
  simp only [Option.map]
  rw [h5.1, h5.2.1]

/-- C2: for a parent box `((x0,y0,z0),(x1,y1,z1))` and a point of the
parent (its coordinates at least the min corner), if every coordinate is
strictly below the max corner the per-axis half-open mask
`coord >= low AND coord < high` places the point in exactly one of the
eight octants; if some coordinate equals the max corner on its axis, the
point is placed in no octant. -/
theorem octantes_exactamente_uno (x0 y0 z0 x1 y1 z1 : ℚ) (q : Punto)
    (hx0 : x0 ≤ q.x) (hy0 : y0 ≤ q.y) (hz0 : z0 ≤ q.z) :
    (q.x < x1 → q.y < y1 → q.z < z1 →
      (octantes ((x0, y0, z0), (x1, y1, z1))).countP (fun ol => pertenece q ol) = 1) ∧
    (x0 ≤ x1 → y0 ≤ y1 → z0 ≤ z1 → (q.x = x1 ∨ q.y = y1 ∨ q.z = z1) →
      (octantes ((x0, y0, z0), (x1, y1, z1))).countP (fun ol => pertenece q ol) = 0) := by
  constructor
  · intro hx1 hy1 hz1
    simp only [octantes, List.countP_cons, List.countP_nil, pertenece, decide_eq_true_eq]
    rcases lt_or_le q.x ((x0 + x1) / 2) with hx | hx <;>
      rcases lt_or_le q.y ((y0 + y1) / 2) with hy | hy <;>
        rcases lt_or_le q.z ((z0 + z1) / 2) with hz | hz <;>
      simp_all [not_lt.mpr, not_le.mpr]
  · intro hxx hyy hzz hd
    simp only [octantes, List.countP_cons, List.countP_nil, pertenece, decide_eq_true_eq]
    have hmx : (x0 + x1) / 2 ≤ x1 := by linarith
    have hmy : (y0 + y1) / 2 ≤ y1 := by linarith
    have hmz : (z0 + z1) / 2 ≤ z1 := by linarith
    rcases hd with hq | hq | hq <;>
      simp_all [not_lt.mpr]

/-- C2 witness: in the unit cube, the interior corner `(0,0,0)` lands in
exactly one octant, the max corner `(1,1,1)` in none. -/
theorem octantes_exactamente_uno_testigo :
    (octantes ((0, 0, 0), (1, 1, 1))).countP (fun ol => pertenece ⟨0, 0, 0⟩ ol) = 1 ∧
    (octantes ((0, 0, 0), (1, 1, 1))).countP (fun ol => pertenece ⟨1, 1, 1⟩ ol) = 0 :=
  ⟨(octantes_exactamente_uno 0 0 0 1 1 1 ⟨0, 0, 0⟩ (by decide) (by decide) (by decide)).1
      (by decide) (by decide) (by decide),
   (octantes_exactamente_uno 0 0 0 1 1 1 ⟨1, 1, 1⟩ (by decide) (by decide) (by decide)).2
      (by decide) (by decide) (by decide) (Or.inl rfl)⟩

/-- Halving both arguments of a max halves the max. -/
theorem max_mitades (a b : ℚ) : max (a / 2) (b / 2) = max a b / 2 := by
  rcases le_total a b with h | h
  · rw [max_eq_right h, max_eq_right (by linarith)]
  · rw [max_eq_left h, max_eq_left (by linarith)]

/-- Each of the eight octants has exactly half the parent's maximum
extent. -/
theorem maxExtension_octante (lim : Limites) (i : ℕ) (hi : i < 8) :
    maxExtension (octante lim i) = maxExtension lim / 2 := by
  have h1 : ∀ u v : ℚ, (u + v) / 2 - u = (v - u) / 2 := by intro u v; ring
  have h2 : ∀ u v : ℚ, v - (u + v) / 2 = (v - u) / 2 := by intro u v; ring
  interval_cases i <;>
    simp only [octante, octantes, List.getD, List.get?, maxExtension, Option.getD] <;>
    simp only [h1, h2, max_mitades]

/-- C9: construction terminates whenever `minSize > 0` and `maxPoints >= 1`:
for every depth bound `n` with `maxExtent <= minSize * 2^n` (in particular
the least one, `n = ceil(log2(maxExtent/minSize))`), a recursion budget of
`n + 1` levels already suffices, because each subdivision requires
`maxExtent > minSize` and halves the maximum extent. -/
theorem construir_termina {tamMin : ℚ} {maxPts : ℤ} (hm : 0 < tamMin) (hM : 1 ≤ maxPts) :
    ∀ (n : ℕ) (p : List Punto) (lim : Limites),
      maxExtension lim ≤ tamMin * 2 ^ n →
      (construir (n + 1) p lim tamMin maxPts).isSome = true := by
  intro n
  induction n with
  | zero =>
    intro p lim hE
    rw [construir, if_neg]
    · rfl
    · rintro ⟨-, h2⟩
      simp only [pow_zero, mul_one] at hE
      linarith
  | succ n ih =>
    intro p lim hE
    by_cases hc : (p.length : ℤ) > maxPts ∧ maxExtension lim > tamMin
    · have hbound : ∀ i, i < 8 → maxExtension (octante lim i) ≤ tamMin * 2 ^ n := by
        intro i hi
        rw [maxExtension_octante lim i hi, pow_succ] at *
        linarith
      obtain ⟨t0, e0⟩ := Option.isSome_iff_exists.mp
        (ih (filtrar p (octante lim 0)) (octante lim 0) (hbound 0 (by omega)))
      obtain ⟨t1, e1⟩ := Option.isSome_iff_exists.mp
        (ih (filtrar p (octante lim 1)) (octante lim 1) (hbound 1 (by omega)))
      obtain ⟨t2, e2⟩ := Option.isSome_iff_exists.mp
        (ih (filtrar p (octante lim 2)) (octante lim 2) (hbound 2 (by omega)))
      obtain ⟨t3, e3⟩ := Option.isSome_iff_exists.mp
        (ih (filtrar p (octante lim 3)) (octante lim 3) (hbound 3 (by omega)))
      obtain ⟨t4, e4⟩ := Option.isSome_iff_exists.mp
        (ih (filtrar p (octante lim 4)) (octante lim 4) (hbound 4 (by omega)))
      obtain ⟨t5, e5⟩ := Option.isSome_iff_exists.mp
        (ih (filtrar p (octante lim 5)) (octante lim 5) (hbound 5 (by omega)))
      obtain ⟨t6, e6⟩ := Option.isSome_iff_exists.mp
        (ih (filtrar p (octante lim 6)) (octante lim 6) (hbound 6 (by omega)))
      obtain ⟨t7, e7⟩ := Option.isSome_iff_exists.mp
        (ih (filtrar p (octante lim 7)) (octante lim 7) (hbound 7 (by omega)))
      rw [construir_succ_pos hc e0 e1 e2 e3 e4 e5 e6 e7]
      rfl
    · rw [construir, if_neg hc]
      rfl

/-- C9 witness: unit cube, `minSize = 1/2`, `maxPoints = 1`, two points;
`maxExtent = 1 <= (1/2) * 2^1`, so fuel `2` suffices. -/
theorem construir_termina_testigo :
    (construir 2 [⟨0, 0, 0⟩, ⟨1/4, 1/4, 1/4⟩] ((0, 0, 0), (1, 1, 1)) (1/2) 1).isSome
      = true :=
  construir_termina (by norm_num) (by norm_num) 1 [⟨0, 0, 0⟩, ⟨1/4, 1/4, 1/4⟩]
    ((0, 0, 0), (1, 1, 1)) (by norm_num [maxExtension])

/-! Statistics of the octree -/

/-- Induction over octree nodes through their child lists. -/
theorem NodoOctree.inducOn {motive : NodoOctree → Prop}
    (paso : ∀ p lim hs, (∀ h ∈ hs, motive h) → motive (NodoOctree.mk p lim hs)) :
    ∀ n, motive n
  | NodoOctree.mk p lim hs => paso p lim hs (fun h hm => NodoOctree.inducOn paso h)
termination_by n => sizeOf n
decreasing_by
  have hlt := List.sizeOf_lt_of_mem hm
  simp only [NodoOctree.mk.sizeOf_spec]
  omega

/-- The accumulation loop adds, fieldwise, the statistics of the children
to the accumulator. -/
theorem acumular_eq (hs : List NodoOctree) (acc : EstadRaw) :
    acumular hs acc =
      ⟨acc.nodos + (hs.map (fun h => (recopilarRaw h).nodos)).sum,
       acc.hojas + (hs.map (fun h => (recopilarRaw h).hojas)).sum,
       acc.internos + (hs.map (fun h => (recopilarRaw h).internos)).sum,
       acc.hojasOcupadas + (hs.map (fun h => (recopilarRaw h).hojasOcupadas)).sum,
       acc.hojasVacias + (hs.map (fun h => (recopilarRaw h).hojasVacias)).sum,
       acc.sumaPuntos + (hs.map (fun h => (recopilarRaw h).sumaPuntos)).sum⟩ := by
  induction hs generalizing acc with
  | nil => simp [acumular]
  | cons h resto ih =>
    rw [acumular, ih]
    simp only [sumarEstad, List.map_cons, List.sum_cons, EstadRaw.mk.injEq]
    omega

/-- Splitting a sum of pointwise sums. -/
theorem suma_mapa_suma {α : Type} (l : List α) (f g : α → ℕ) :
    (l.map (fun x => f x + g x)).sum = (l.map f).sum + (l.map g).sum := by
  induction l with
  | nil => simp
  | cons a resto ih => simp [ih]; omega

/-- Length of the concatenated leaf lists. -/
theorem hojasLista_longitud (hs : List NodoOctree) :
    (hojasLista hs).length = (hs.map (fun h => (obtener_nodos_hoja h).length)).sum := by
  induction hs with
  | nil => simp [hojasLista]
  | cons h resto ih => rw [hojasLista]; simp [ih]

/-- Counting over the concatenated leaf lists. -/
theorem hojasLista_countP (hs : List NodoOctree) (pr : NodoOctree → Bool) :
    (hojasLista hs).countP pr = (hs.map (fun h => (obtener_nodos_hoja h).countP pr)).sum := by
  induction hs with
  | nil => simp [hojasLista]
  | cons h resto ih => rw [hojasLista]; simp [List.countP_append, ih]

/-- Summing point counts of occupied leaves over the concatenation. -/
theorem hojasLista_suma (hs : List NodoOctree) :
    (((hojasLista hs).filter esOcupada).map (fun n => n.puntos.length)).sum =
      (hs.map (fun h =>
        (((obtener_nodos_hoja h).filter esOcupada).map (fun n => n.puntos.length)).sum)).sum := by
  induction hs with
  | nil => simp [hojasLista]
  | cons h resto ih => rw [hojasLista]; simp [List.filter_append, ih]

/-- The recursive statistics pass is consistent: `nodos = hojas + internos`,
`ocupadas + vacias = hojas`, and the leaf fields agree with the leaf list
produced by `obtener_nodos_hoja`. -/
theorem recopilar_identidades : ∀ t : NodoOctree,
    (recopilarRaw t).nodos = (recopilarRaw t).hojas + (recopilarRaw t).internos ∧
    (recopilarRaw t).hojasOcupadas + (recopilarRaw t).hojasVacias = (recopilarRaw t).hojas ∧
    (recopilarRaw t).hojas = (obtener_nodos_hoja t).length ∧
    (recopilarRaw t).hojasOcupadas = (obtener_nodos_hoja t).countP esOcupada ∧
    (recopilarRaw t).sumaPuntos =
      (((obtener_nodos_hoja t).filter esOcupada).map (fun n => n.puntos.length)).sum := by
  refine NodoOctree.inducOn ?_
  intro p lim hs ih
  by_cases hvacio : hs.isEmpty
  · obtain rfl : hs = [] := List.isEmpty_iff.mp hvacio
    rw [recopilarRaw, obtener_nodos_hoja]
    by_cases hp : 0 < p.length <;>
      simp [hp, esOcupada, NodoOctree.puntos, List.countP_cons]
  · rw [recopilarRaw, if_neg hvacio, obtener_nodos_hoja, if_neg hvacio, acumular_eq]
    have enodos : hs.map (fun h => (recopilarRaw h).nodos) =
        hs.map (fun h => (recopilarRaw h).hojas + (recopilarRaw h).internos) :=
      List.map_congr_left (fun h hm => (ih h hm).1)
    have eov : hs.map (fun h => (recopilarRaw h).hojasOcupadas + (recopilarRaw h).hojasVacias) =
        hs.map (fun h => (recopilarRaw h).hojas) :=
      List.map_congr_left (fun h hm => (ih h hm).2.1)
    have ehojas : hs.map (fun h => (recopilarRaw h).hojas) =
        hs.map (fun h => (obtener_nodos_hoja h).length) :=
      List.map_congr_left (fun h hm => (ih h hm).2.2.1)
    have eocup : hs.map (fun h => (recopilarRaw h).hojasOcupadas) =
        hs.map (fun h => (obtener_nodos_hoja h).countP esOcupada) :=
      List.map_congr_left (fun h hm => (ih h hm).2.2.2.1)
    have esuma : hs.map (fun h => (recopilarRaw h).sumaPuntos) =
        hs.map (fun h =>
          (((obtener_nodos_hoja h).filter esOcupada).map (fun n => n.puntos.length)).sum) :=
      List.map_congr_left (fun h hm => (ih h hm).2.2.2.2)
    refine ⟨?_, ?_, ?_, ?_, ?_⟩
    · simp only [enodos, suma_mapa_suma]
      omega
    · simp only [← eov, suma_mapa_suma]
      omega
    · simp only [ehojas, hojasLista_longitud, zero_add]
    · simp only [eocup, hojasLista_countP, zero_add]
    · simp only [esuma, hojasLista_suma, zero_add]

/-- Every constructed tree has, at every node, either no children or
exactly eight. -/
theorem construir_ochoOCero : ∀ (fuel : ℕ) {p : List Punto} {lim : Limites} {m : ℚ}
    {M : ℤ} {t : NodoOctree},
    construir fuel p lim m M = some t → NodoOctree.ochoOCero t = true := by
  intro fuel
  induction fuel with
  | zero =>
    intro p lim m M t h
    rw [construir] at h
    exact absurd h (by simp)
  | succ f ih =>
    intro p lim m M t h
    rcases construir_succ_inv h with ⟨-, rfl⟩ | ⟨-, n0, n1, n2, n3, n4, n5, n6, n7,
      e0, e1, e2, e3, e4, e5, e6, e7, rfl⟩
    · rw [NodoOctree.ochoOCero]
      simp [todosOchoOCero]
    · rw [NodoOctree.ochoOCero]
      simp only [todosOchoOCero, List.length_cons, List.length_nil]
      simp [ih e0, ih e1, ih e2, ih e3, ih e4, ih e5, ih e6, ih e7]

/-- C8: for every constructed octree, `totalNodes = leaves + internal` and
`occupiedLeaves + emptyLeaves = leaves`; every node has either no children
or exactly eight; `occupiedLeaves` counts the occupied leaves of the leaf
list; and the average is the occupied-leaf point total divided by
`occupiedLeaves` when that is nonzero, and `0` (not NaN) otherwise. -/
theorem estadisticas_espec {fuel : ℕ} {p : List Punto} {lim : Limites} {m : ℚ} {M : ℤ}
    {t : NodoOctree} (h : construir fuel p lim m M = some t) :
    t.recopilar_estadisticas.total_nodos =
        t.recopilar_estadisticas.hojas + t.recopilar_estadisticas.internos ∧
    t.recopilar_estadisticas.hojas_ocupadas + t.recopilar_estadisticas.hojas_vacias =
        t.recopilar_estadisticas.hojas ∧
    NodoOctree.ochoOCero t = true ∧
    t.recopilar_estadisticas.hojas = (obtener_nodos_hoja t).length ∧
    t.recopilar_estadisticas.hojas_ocupadas = (obtener_nodos_hoja t).countP esOcupada ∧
    ((obtener_nodos_hoja t).countP esOcupada ≠ 0 →
      t.recopilar_estadisticas.promedio_puntos =
        (Nat.cast ((((obtener_nodos_hoja t).filter esOcupada).map
            (fun n => n.puntos.length)).sum) : ℚ) /
          (Nat.cast ((obtener_nodos_hoja t).countP esOcupada) : ℚ)) ∧
    ((obtener_nodos_hoja t).countP esOcupada = 0 →
      t.recopilar_estadisticas.promedio_puntos = 0) := by
  obtain ⟨e1, e2, e3, e4, e5⟩ := recopilar_identidades t
  simp only [NodoOctree.recopilar_estadisticas]
  refine ⟨e1, e2, construir_ochoOCero fuel h, e3, e4, ?_, ?_⟩
  · intro hne
    rw [if_pos (by rw [e4]; exact hne), e5, e4]
  · intro hcero
    rw [if_neg (by rw [e4]; simp [hcero])]

/-- C8 witness: the subdividing two-point tree of the C5 witness. -/
theorem estadisticas_espec_testigo :
    (construir 2 [⟨0, 0, 0⟩, ⟨3/4, 3/4, 3/4⟩] ((0, 0, 0), (1, 1, 1)) (1/2) 1).map
        (fun t => (t.recopilar_estadisticas.total_nodos,
                   t.recopilar_estadisticas.hojas + t.recopilar_estadisticas.internos)) =
      some (9, 9) := by
  have hs : (construir 2 [⟨0, 0, 0⟩, ⟨3/4, 3/4, 3/4⟩]
      ((0, 0, 0), (1, 1, 1)) (1/2) 1).isSome = true := by
    with_unfolding_all decide
  obtain ⟨t, ht⟩ := Option.isSome_iff_exists.mp hs
  have e1 := (estadisticas_espec ht).1
  have hcomp : (construir 2 [⟨0, 0, 0⟩, ⟨3/4, 3/4, 3/4⟩]
      ((0, 0, 0), (1, 1, 1)) (1/2) 1).map
        (fun t => t.recopilar_estadisticas.total_nodos) = some 9 := by
    with_unfolding_all decide
  rw [ht] at hcomp ⊢
  simp only [Option.map, Option.some.injEq] at hcomp ⊢
  rw [← e1, hcomp]

/-! Invariants of the occupancy grid -/

/-- The fold-based minimum is a lower bound for its seed and elements. -/
theorem minimoLista_le (l : List ℚ) (a : ℚ) :
    minimoLista a l ≤ a ∧ ∀ b ∈ l, minimoLista a l ≤ b := by
  induction l generalizing a with
  | nil => simp [minimoLista]
  | cons c resto ih =>
    have h := ih (min a c)
    simp only [minimoLista, List.foldl_cons] at h ⊢
    refine ⟨le_trans h.1 (min_le_left a c), ?_⟩
    intro b hb
    rcases List.mem_cons.mp hb with rfl | hb
    · exact le_trans h.1 (min_le_right a b)
    · exact h.2 b hb

/-- The fold-based maximum is an upper bound for its seed and elements. -/
theorem maximoLista_ge (l : List ℚ) (a : ℚ) :
    a ≤ maximoLista a l ∧ ∀ b ∈ l, b ≤ maximoLista a l := by
  induction l generalizing a with
  | nil => simp [maximoLista]
  | cons c resto ih =>
    have h := ih (max a c)
    simp only [maximoLista, List.foldl_cons] at h ⊢
    refine ⟨le_trans (le_max_left a c) h.1, ?_⟩
    intro b hb
    rcases List.mem_cons.mp hb with rfl | hb
    · exact le_trans (le_max_right a b) h.1
    · exact h.2 b hb

/-- Bumping a key that is absent leaves the mapped entries unchanged. -/
theorem mapa_identidad_sin_clave (d : List ((ℤ × ℤ × ℤ) × ℕ)) (k : ℤ × ℤ × ℤ)
    (h : ∀ e ∈ d, e.1 ≠ k) :
    d.map (fun e => if e.1 = k then (e.1, e.2 + 1) else e) = d := by
  induction d with
  | nil => rfl
  | cons e resto ih =>
    rw [List.map_cons, if_neg (h e (List.mem_cons_self e resto)),
        ih (fun x hx => h x (List.mem_cons_of_mem e hx))]

/-- Updating a value in place keeps the keys. -/
theorem claves_actualizar (d : List ((ℤ × ℤ × ℤ) × ℕ)) (k : ℤ × ℤ × ℤ) :
    (d.map (fun e => if e.1 = k then (e.1, e.2 + 1) else e)).map Prod.fst =
      d.map Prod.fst := by
  induction d with
  | nil => rfl
  | cons e resto ih =>
    simp only [List.map_cons, ih]
    congr 1
    by_cases h0 : e.1 = k <;> simp [h0]

/-- Bumping a present key (keys distinct) adds exactly one to the sum of
the stored counts. -/
theorem suma_actualizar (k : ℤ × ℤ × ℤ) : ∀ (d : List ((ℤ × ℤ × ℤ) × ℕ)),
    (d.map Prod.fst).Nodup → d.any (fun e => decide (e.1 = k)) = true →
    ((d.map (fun e => if e.1 = k then (e.1, e.2 + 1) else e)).map (fun e => e.2)).sum
      = (d.map (fun e => e.2)).sum + 1 := by
  intro d
  induction d with
  | nil => intro _ hany; simp at hany
  | cons e resto ih =>
    intro hnd hany
    have hnd2 : (e.1 :: resto.map Prod.fst).Nodup := by
      simpa only [List.map_cons] using hnd
    have hnd' := List.nodup_cons.mp hnd2
    simp only [List.map_cons, List.sum_cons]
    by_cases h0 : e.1 = k
    · rw [if_pos h0]
      have hnk : ∀ x ∈ resto, x.1 ≠ k := by
        intro x hx hxk
        exact hnd'.1 (by rw [h0, ← hxk]; exact List.mem_map_of_mem Prod.fst hx)
      rw [mapa_identidad_sin_clave resto k hnk]
      simp only [List.map_cons, List.sum_cons]
      omega
    · rw [if_neg h0]
      have hany' : resto.any (fun e => decide (e.1 = k)) = true := by
        simp only [List.any_cons, Bool.or_eq_true] at hany
        rcases hany with h | h
        · exact absurd (of_decide_eq_true h) h0
        · exact h
      rw [ih hnd'.2 hany']
      omega

/-- One dict update preserves distinct keys and positive counts, and adds
exactly one to the total stored count. -/
theorem ponerIncremento_espec (d : List ((ℤ × ℤ × ℤ) × ℕ)) (k : ℤ × ℤ × ℤ)
    (hnd : (d.map Prod.fst).Nodup) (hpos : ∀ e ∈ d, 1 ≤ e.2) :
    ((ponerIncremento d k).map Prod.fst).Nodup ∧
    (∀ e ∈ ponerIncremento d k, 1 ≤ e.2) ∧
    ((ponerIncremento d k).map (fun e => e.2)).sum = (d.map (fun e => e.2)).sum + 1 := by
  rw [ponerIncremento]
  by_cases hany : d.any (fun e => decide (e.1 = k)) = true
  · rw [if_pos hany]
    refine ⟨by rw [claves_actualizar]; exact hnd, ?_, suma_actualizar k d hnd hany⟩
    intro e he
    obtain ⟨e0, he0, rfl⟩ := List.mem_map.mp he
    by_cases h0 : e0.1 = k
    · rw [if_pos h0]
      omega
    · rw [if_neg h0]
      exact hpos e0 he0
  · rw [if_neg hany]
    have hk : k ∉ d.map Prod.fst := by
      intro hk
      obtain ⟨e, he, hek⟩ := List.mem_map.mp hk
      have hfalse := List.any_eq_false.mp (Bool.not_eq_true _ ▸ hany) e he
      simp only [decide_eq_true_eq] at hfalse
      exact hfalse hek
    refine ⟨?_, ?_, ?_⟩
    · rw [List.map_append]
      refine List.nodup_append.mpr ⟨hnd, List.nodup_singleton _, ?_⟩
      intro a ha hb
      simp only [List.map_cons, List.map_nil, List.mem_singleton] at hb
      exact hk (hb ▸ ha)
    · intro e he
      rcases List.mem_append.mp he with he | he
      · exact hpos e he
      · simp only [List.mem_singleton] at he
        subst he
        exact le_refl 1
    · simp [List.map_append]

/-- The `_poblar` loop, from any well-formed accumulator: keys stay
distinct, counts stay positive, and the total stored count grows by exactly
the number of points bucketed. -/
theorem poblar_espec (xMin yMin zMin tam : ℚ) : ∀ (puntos : List Punto)
    (d : List ((ℤ × ℤ × ℤ) × ℕ)),
    (d.map Prod.fst).Nodup → (∀ e ∈ d, 1 ≤ e.2) →
    (((puntos.foldl (fun d q => ponerIncremento d (clavePunto xMin yMin zMin tam q)) d).map
        Prod.fst).Nodup ∧
     (∀ e ∈ puntos.foldl (fun d q => ponerIncremento d (clavePunto xMin yMin zMin tam q)) d,
        1 ≤ e.2) ∧
     ((puntos.foldl (fun d q => ponerIncremento d (clavePunto xMin yMin zMin tam q)) d).map
        (fun e => e.2)).sum = (d.map (fun e => e.2)).sum + puntos.length) := by
  intro puntos
  induction puntos with
  | nil =>
    intro d h1 h2
    exact ⟨h1, h2, by simp⟩
  | cons q resto ih =>
    intro d h1 h2
    simp only [List.foldl_cons, List.length_cons]
    obtain ⟨n1, n2, n3⟩ := ponerIncremento_espec d (clavePunto xMin yMin zMin tam q) h1 h2
    obtain ⟨m1, m2, m3⟩ := ih (ponerIncremento d (clavePunto xMin yMin zMin tam q)) n1 n2
    exact ⟨m1, m2, by rw [m3, n3]; omega⟩

/-- C1: for every non-empty point set and `cellSize > 0`, the sum of the
stored bucket counts equals the number of points, every stored bucket count
is at least `1` (so `ocupadas` counts exactly the non-empty buckets), and
the statistics satisfy `ocupadas + vacias = total_celdas` with
`total_celdas = nx * ny * nz` and `n_i = floor((max_i - min_i)/cellSize) + 1`. -/
theorem rejilla_invariantes {puntos : List Punto} {tam : ℚ} {g : RejillaOcupacion}
    (htam : 0 < tam) (h : construirRejilla puntos tam = some g) :
    (g.rejilla.map (fun e => e.2)).sum = puntos.length ∧
    (∀ e ∈ g.rejilla, 1 ≤ e.2) ∧
    (g.estadisticas_celdas.ocupadas : ℤ) + g.estadisticas_celdas.vacias =
      g.estadisticas_celdas.total_celdas ∧
    g.estadisticas_celdas.total_celdas =
      (⌊(g.xMaximo - g.xMinimo) / g.tamCelda⌋ + 1) *
        (⌊(g.yMaximo - g.yMinimo) / g.tamCelda⌋ + 1) *
        (⌊(g.zMaximo - g.zMinimo) / g.tamCelda⌋ + 1) := by
  cases puntos with
  | nil =>
    rw [construirRejilla] at h
    exact absurd h (by simp)
  | cons p resto =>
    rw [construirRejilla] at h
    obtain rfl := (Option.some.inj h).symm
    obtain ⟨n1, n2, n3⟩ :=
      poblar_espec (minimoLista p.x (resto.map Punto.x)) (minimoLista p.y (resto.map Punto.y))
        (minimoLista p.z (resto.map Punto.z)) tam (p :: resto) [] (by simp) (by simp)
    refine ⟨?_, n2, ?_, rfl⟩
    · simp only [poblar]
      simpa using n3
    · simp only [RejillaOcupacion.estadisticas_celdas]
      omega

/-- C1 witness: two points, the diagonal of the unit cube, `cellSize = 1`. -/
theorem rejilla_invariantes_testigo :
    (construirRejilla [⟨0, 0, 0⟩, ⟨1, 1, 1⟩] 1).map
        (fun g => ((g.rejilla.map (fun e => e.2)).sum,
                   (g.estadisticas_celdas.ocupadas : ℤ) + g.estadisticas_celdas.vacias,
                   g.estadisticas_celdas.total_celdas)) = some (2, 8, 8) := by
  have hs : (construirRejilla [⟨0, 0, 0⟩, ⟨1, 1, 1⟩] 1).isSome = true := by
    with_unfolding_all decide
  obtain ⟨g, hg⟩ := Option.isSome_iff_exists.mp hs
  obtain ⟨i1, -, i3, -⟩ := rejilla_invariantes one_pos hg
  have h8 : (construirRejilla [⟨0, 0, 0⟩, ⟨1, 1, 1⟩] 1).map
      (fun g => g.estadisticas_celdas.total_celdas) = some 8 := by
    with_unfolding_all decide
  rw [hg] at h8 ⊢
  simp only [Option.map, Option.some.injEq] at h8 ⊢
  rw [i1, i3, h8]
  rfl

/-- C3 counterexample: the eight unit-cube corners with `cellSize = 1`
(the spec's own scenario A, containing the max-corner point `(1,1,1)`).
Nothing is dropped: the bucket counts sum to the full point count `8`, all
eight cells are occupied, and the cell `(1,1,1)` — the index
`floor((coord - min)/cellSize)` of the max corner — holds exactly one
point. -/
theorem rejilla_frontera_contra :
    (construirRejilla
        [⟨0, 0, 0⟩, ⟨0, 0, 1⟩, ⟨0, 1, 0⟩, ⟨0, 1, 1⟩,
         ⟨1, 0, 0⟩, ⟨1, 0, 1⟩, ⟨1, 1, 0⟩, ⟨1, 1, 1⟩] 1).map
      (fun g => ((g.rejilla.map (fun e => e.2)).sum, g.puntos.length,
                 g.estadisticas_celdas.ocupadas,
                 decide (((1, 1, 1), 1) ∈ g.rejilla))) = some (8, 8, 8, true) := by
  with_unfolding_all decide

/-- C3 amended: no point is ever dropped from the occupancy grid.  The
bucket counts always sum to the point count, and every point of the cloud —
including one whose coordinate equals the global maximum on some axis —
receives a cell index between `0` and `n_i - 1 = floor((max_i - min_i)/cellSize)`
on every axis, hence lies in a valid cell of the grid. -/
theorem rejilla_sin_perdida {puntos : List Punto} {tam : ℚ} {g : RejillaOcupacion}
    (htam : 0 < tam) (h : construirRejilla puntos tam = some g) :
    (g.rejilla.map (fun e => e.2)).sum = puntos.length ∧
    ∀ q ∈ puntos,
      (0 ≤ (clavePunto g.xMinimo g.yMinimo g.zMinimo g.tamCelda q).1 ∧
        (clavePunto g.xMinimo g.yMinimo g.zMinimo g.tamCelda q).1 ≤
          ⌊(g.xMaximo - g.xMinimo) / g.tamCelda⌋) ∧
      (0 ≤ (clavePunto g.xMinimo g.yMinimo g.zMinimo g.tamCelda q).2.1 ∧
        (clavePunto g.xMinimo g.yMinimo g.zMinimo g.tamCelda q).2.1 ≤
          ⌊(g.yMaximo - g.yMinimo) / g.tamCelda⌋) ∧
      (0 ≤ (clavePunto g.xMinimo g.yMinimo g.zMinimo g.tamCelda q).2.2 ∧
        (clavePunto g.xMinimo g.yMinimo g.zMinimo g.tamCelda q).2.2 ≤
          ⌊(g.zMaximo - g.zMinimo) / g.tamCelda⌋) := by
  cases puntos with
  | nil =>
    rw [construirRejilla] at h
    exact absurd h (by simp)
  | cons p resto =>
    rw [construirRejilla] at h
    obtain rfl := (Option.some.inj h).symm
    obtain ⟨-, -, n3⟩ :=
      poblar_espec (minimoLista p.x (resto.map Punto.x)) (minimoLista p.y (resto.map Punto.y))
        (minimoLista p.z (resto.map Punto.z)) tam (p :: resto) [] (by simp) (by simp)
    constructor
    · simp only [poblar]
      simpa using n3
    · intro q hq
      have hcoord : minimoLista p.x (resto.map Punto.x) ≤ q.x ∧
          q.x ≤ maximoLista p.x (resto.map Punto.x) ∧
          minimoLista p.y (resto.map Punto.y) ≤ q.y ∧
          q.y ≤ maximoLista p.y (resto.map Punto.y) ∧
          minimoLista p.z (resto.map Punto.z) ≤ q.z ∧
          q.z ≤ maximoLista p.z (resto.map Punto.z) := by
        rcases List.mem_cons.mp hq with rfl | hq
        · exact ⟨(minimoLista_le _ _).1, (maximoLista_ge _ _).1,
                 (minimoLista_le _ _).1, (maximoLista_ge _ _).1,
                 (minimoLista_le _ _).1, (maximoLista_ge _ _).1⟩
        · exact ⟨(minimoLista_le _ _).2 q.x (List.mem_map_of_mem Punto.x hq),
                 (maximoLista_ge _ _).2 q.x (List.mem_map_of_mem Punto.x hq),
                 (minimoLista_le _ _).2 q.y (List.mem_map_of_mem Punto.y hq),
                 (maximoLista_ge _ _).2 q.y (List.mem_map_of_mem Punto.y hq),
                 (minimoLista_le _ _).2 q.z (List.mem_map_of_mem Punto.z hq),
                 (maximoLista_ge _ _).2 q.z (List.mem_map_of_mem Punto.z hq)⟩
      obtain ⟨hx0, hx1, hy0, hy1, hz0, hz1⟩ := hcoord
      simp only [clavePunto]
      refine ⟨⟨?_, ?_⟩, ⟨?_, ?_⟩, ⟨?_, ?_⟩⟩
      · exact Int.floor_nonneg.mpr (div_nonneg (by linarith) htam.le)
      · exact Int.floor_le_floor (by gcongr)
      · exact Int.floor_nonneg.mpr (div_nonneg (by linarith) htam.le)
      · exact Int.floor_le_floor (by gcongr)
      · exact Int.floor_nonneg.mpr (div_nonneg (by linarith) htam.le)
      · exact Int.floor_le_floor (by gcongr)

/-- C3 amended witness: in scenario A the max corner `(1,1,1)` gets a cell
index within range on the x axis and the counts sum to the point count. -/
theorem rejilla_sin_perdida_testigo :
    (construirRejilla
        [⟨0, 0, 0⟩, ⟨0, 0, 1⟩, ⟨0, 1, 0⟩, ⟨0, 1, 1⟩,
         ⟨1, 0, 0⟩, ⟨1, 0, 1⟩, ⟨1, 1, 0⟩, ⟨1, 1, 1⟩] 1).map
      (fun g => ((g.rejilla.map (fun e => e.2)).sum,
                 decide (0 ≤ (clavePunto g.xMinimo g.yMinimo g.zMinimo g.tamCelda
                       ⟨1, 1, 1⟩).1 ∧
                   (clavePunto g.xMinimo g.yMinimo g.zMinimo g.tamCelda ⟨1, 1, 1⟩).1 ≤
                     ⌊(g.xMaximo - g.xMinimo) / g.tamCelda⌋))) = some (8, true) := by
  have hs : (construirRejilla
      [⟨0, 0, 0⟩, ⟨0, 0, 1⟩, ⟨0, 1, 0⟩, ⟨0, 1, 1⟩,
       ⟨1, 0, 0⟩, ⟨1, 0, 1⟩, ⟨1, 1, 0⟩, ⟨1, 1, 1⟩] 1).isSome = true := by
    with_unfolding_all decide
  obtain ⟨g, hg⟩ := Option.isSome_iff_exists.mp hs
  obtain ⟨i1, i2⟩ := rejilla_sin_perdida one_pos hg
  have hb := (i2 ⟨1, 1, 1⟩ (by decide)).1
  rw [hg]
  simp only [Option.map, Option.some.injEq]
  rw [i1, decide_eq_true (⟨hb.1, hb.2⟩ : _ ∧ _)]
  rfl
